import Mathlib

/-!
Verification of the scientific-conference-management API.

The HTTP routes of `apps/api/src/routes` (conferences, scientists,
participations) are shallowly embedded.  The Prisma store is a list-backed
state; query-string handling follows the zod request schemas together with
the JavaScript numeric coercions performed inside the handlers; every
handler becomes a pure function from the store state and the zod-validated
request to either a response value or a store-level runtime error (the
shape Prisma raises when it is handed an invalid argument such as a
negative `skip` or an unknown `orderBy` column).

Conference dates are modelled as natural-number timestamps: the ISO-8601
serialization used by the code is order-isomorphic to the timestamp and no
verified property depends on the textual form of a date.  The opaque JSON
`metadata` document is modelled as an association list; the API never
inspects its contents.
-/

namespace ConfApp

/-! ## Data model (the Prisma rows as used by the routes) -/

/-- A `Scientist` row: `email` and `orcid` are nullable columns. -/
structure Scientist where
  id : Nat
  fullName : String
  country : String
  degree : String
  specialization : String
  organization : String
  email : Option String
  orcid : Option String
  hIndex : Nat
deriving DecidableEq

/-- A `Conference` row; `date` is a timestamp (see the module comment). -/
structure Conference where
  id : Nat
  topic : String
  name : String
  date : Nat
  country : String
  location : String
  capacity : Nat
deriving DecidableEq

/-- The opaque JSON `metadata` document. -/
abbrev Metadata := List (String × String)

/-- A `Participation` row; `metadata` is a nullable JSON column. -/
structure Participation where
  id : Nat
  talkTitle : String
  participationType : String
  durationMinutes : Nat
  scientistId : Nat
  conferenceId : Nat
  status : String
  metadata : Option Metadata
deriving DecidableEq

/-- The store state: the three tables plus the id the store will assign to
the next created `Participation`. -/
structure DB where
  scientists : List Scientist
  conferences : List Conference
  participations : List Participation
  nextParticipationId : Nat
deriving DecidableEq

/-! ## JavaScript numeric coercion

The handlers call `parseInt` on the raw `page` / `limit` strings.  `none`
models `NaN` (no leading digits).  Leading whitespace is skipped, an
optional sign is honoured, and parsing stops at the first non-digit, so a
string such as `"2x"` parses to `2`.  (The JavaScript hex-prefix form
`"0x…"` is not modelled; no verified property exercises it.) -/

def digitsAcc : List Char → Option Nat → Option Nat
  | [], acc => acc
  | c :: rest, acc =>
    if c.isDigit then digitsAcc rest (some (acc.getD 0 * 10 + (c.toNat - 48)))
    else acc

/-- Model of JavaScript `parseInt(s)` (decimal). -/
def jsParseInt (s : String) : Option Int :=
  match s.toList.dropWhile Char.isWhitespace with
  | '-' :: rest => (digitsAcc rest none).map fun n => -(n : Int)
  | '+' :: rest => (digitsAcc rest none).map fun n => (n : Int)
  | cs => (digitsAcc cs none).map fun n => (n : Int)

/-- Model of `Math.ceil(total / limit)` for a non-negative `total` and a
positive `limit` (every verified property constrains `limit ≥ 1`; the
degenerate non-positive `limit`, which yields `Infinity` or a negative
value in JavaScript, is collapsed to `0`). -/
def jsCeilDiv (total : Nat) (limit : Int) : Nat :=
  if limit ≤ 0 then 0 else (total + limit.toNat - 1) / limit.toNat

/-! ## Case-insensitive substring matching

Prisma `{ contains: s, mode: 'insensitive' }`. -/

def charsContain (hay needle : List Char) : Bool :=
  match hay with
  | [] => needle.isEmpty
  | _ :: rest => needle.isPrefixOf hay || charsContain rest needle

/-- ASCII lowercasing, character by character (the case folding relevant
to the fields and filters exercised here). -/
def lowerChar (c : Char) : Char :=
  if 65 ≤ c.toNat && c.toNat ≤ 90 then Char.ofNat (c.toNat + 32) else c

/-- Case-insensitive substring test, as Prisma's insensitive `contains`. -/
def containsCI (hay needle : String) : Bool :=
  charsContain (hay.toList.map lowerChar) (needle.toList.map lowerChar)

/-! ## The store's sort

Prisma's `orderBy` is modelled by a stable insertion sort on a boolean
comparator (structurally recursive so that concrete runs reduce). -/

def insertLe (le : α → α → Bool) (a : α) : List α → List α
  | [] => [a]
  | b :: bs => if le a b then a :: b :: bs else b :: insertLe le a bs

def sortLe (le : α → α → Bool) : List α → List α
  | [] => []
  | a :: as => insertLe le a (sortLe le as)

inductive SortOrder where
  | asc
  | desc
deriving DecidableEq

/-- `sortOrder: 'desc'` flips the column comparator. -/
def orient (ord : SortOrder) (le : α → α → Bool) : α → α → Bool :=
  match ord with
  | .asc => le
  | .desc => fun a b => le b a

/-! ## Store-level runtime errors

Prisma raises (and the handlers do not catch, so the framework answers
with a 500-class server error) when it receives a negative `skip`, a `NaN`
where an integer is required, or an `orderBy` column that does not exist
on the model. -/

inductive StoreErr where
  | negativeSkip
  | nanArg
  | unknownOrderField
deriving DecidableEq

/-- Prisma `findMany({ where, skip, take, orderBy })` over a list-backed
table: filter, sort, drop `skip`, take `take`.  A negative `skip` is a
store error; a negative `take` is Prisma's take-from-the-end form (not
exercised by any verified property). -/
def findMany (rows : List α) (pred : α → Bool) (le : α → α → Bool)
    (skip take : Int) : Except StoreErr (List α) :=
  if skip < 0 then .error .negativeSkip
  else
    let rem := (sortLe le (rows.filter pred)).drop skip.toNat
    if take < 0 then .ok (rem.drop (rem.length - (-take).toNat))
    else .ok (rem.take take.toNat)

instance {ε α : Type} [DecidableEq ε] [DecidableEq α] :
    DecidableEq (Except ε α) := fun x y =>
  match x, y with
  | .error a, .error b =>
    if h : a = b then isTrue (by rw [h])
    else isFalse (by intro hc; injection hc; contradiction)
  | .error _, .ok _ => isFalse (by intro hc; injection hc)
  | .ok _, .error _ => isFalse (by intro hc; injection hc)
  | .ok a, .ok b =>
    if h : a = b then isTrue (by rw [h])
    else isFalse (by intro hc; injection hc; contradiction)

/-- The `pagination` object every list response carries. -/
structure Pagination where
  page : Int
  limit : Int
  total : Nat
  pages : Nat
deriving DecidableEq

/-- The offset the handlers compute: `skip = (pageNum - 1) * limitNum`
after `parseInt` on both parameters; `none` models a `NaN` operand. -/
def skipOf (page limit : String) : Option Int :=
  match jsParseInt page, jsParseInt limit with
  | some p, some l => some ((p - 1) * l)
  | _, _ => none

/-- The shared body of the three list handlers: `parseInt` the textual
`page` / `limit`, compute `skip`, issue the page query and the count query
over the same filter, and report `pages = Math.ceil(total / limit)`.
`le?` is `none` when the requested `sortBy` column does not exist, in
which case the store rejects the query at runtime. -/
def listPaginate (rows : List α) (pred : α → Bool) (le? : Option (α → α → Bool))
    (page limit : String) : Except StoreErr (List α × Pagination) :=
  match jsParseInt page, jsParseInt limit with
  | some pageNum, some limitNum =>
    match le? with
    | none => .error .unknownOrderField
    | some le =>
      match findMany rows pred le ((pageNum - 1) * limitNum) limitNum with
      | .error e => .error e
      | .ok data =>
        let total := rows.countP pred
        .ok (data, { page := pageNum, limit := limitNum, total := total,
                     pages := jsCeilDiv total limitNum })
  | _, _ => .error .nanArg

/-! ## GET /conferences (conferences.ts, lines 56-114) -/

/-- The zod-validated query of `GET /conferences` (lines 63-70): every
field but `sortOrder` is an arbitrary string; the `Option String` filters
are absent-or-present, and a present empty string is falsy in the
handler's truthiness tests. -/
structure ConfQuery where
  page : String
  limit : String
  sortBy : String
  sortOrder : SortOrder
  country : Option String
  topic : Option String
deriving DecidableEq

/-- The raw query string before zod validation. -/
structure RawListQuery where
  page : Option String := none
  limit : Option String := none
  sortBy : Option String := none
  sortOrder : Option String := none
  country : Option String := none
  topic : Option String := none

def parseSortOrder : String → Option SortOrder
  | "asc" => some .asc
  | "desc" => some .desc
  | _ => none

/-- The zod request schema of `GET /conferences`: defaults are applied,
`sortOrder` must be `asc`/`desc`, and `page`, `limit` and `sortBy` are
accepted as arbitrary strings — zod performs no numeric or allow-list
validation on them. -/
def conferencesValidateQuery (raw : RawListQuery) : Option ConfQuery :=
  (parseSortOrder (raw.sortOrder.getD "desc")).map fun so =>
    { page := raw.page.getD "1", limit := raw.limit.getD "10",
      sortBy := raw.sortBy.getD "date", sortOrder := so,
      country := raw.country, topic := raw.topic }

/-- The `where` built at lines 91-93: truthy `country` / `topic` become
case-insensitive `contains` filters. -/
def confWhere (q : ConfQuery) (c : Conference) : Bool :=
  (match q.country with
   | none => true
   | some s => if s == "" then true else containsCI c.country s) &&
  (match q.topic with
   | none => true
   | some s => if s == "" then true else containsCI c.topic s)

/-- Resolution of `orderBy: { [sortBy]: sortOrder }` against the
`Conference` columns; `none` models the runtime rejection Prisma issues
for a column that does not exist on the model. -/
def confFieldLe : String → Option (Conference → Conference → Bool)
  | "id" => some fun a b => a.id ≤ b.id
  | "topic" => some fun a b => a.topic ≤ b.topic
  | "name" => some fun a b => a.name ≤ b.name
  | "date" => some fun a b => a.date ≤ b.date
  | "country" => some fun a b => a.country ≤ b.country
  | "location" => some fun a b => a.location ≤ b.location
  | "capacity" => some fun a b => a.capacity ≤ b.capacity
  | _ => none

/-- The `GET /conferences` handler (lines 84-114). -/
def getConferences (db : DB) (q : ConfQuery) :
    Except StoreErr (List Conference × Pagination) :=
  listPaginate db.conferences (confWhere q)
    ((confFieldLe q.sortBy).map (orient q.sortOrder)) q.page q.limit

/-! ## GET /scientists (scientists route, lines 48-109) -/

/-- The zod-validated query of `GET /scientists` (lines 55-61). -/
structure SciQuery where
  page : String
  limit : String
  sortBy : String
  sortOrder : SortOrder
  search : Option String
deriving DecidableEq

/-- The `where` built at lines 82-88: a truthy `search` becomes an `OR`
of case-insensitive `contains` filters over `fullName`,
`specialization` and `organization`. -/
def sciWhere (q : SciQuery) (s : Scientist) : Bool :=
  match q.search with
  | none => true
  | some t =>
    if t == "" then true
    else containsCI s.fullName t || containsCI s.specialization t ||
      containsCI s.organization t

def optStrLe (a b : Option String) : Bool :=
  match a, b with
  | none, _ => true
  | some _, none => false
  | some x, some y => x ≤ y

/-- `orderBy` resolution against the `Scientist` columns. -/
def sciFieldLe : String → Option (Scientist → Scientist → Bool)
  | "id" => some fun a b => a.id ≤ b.id
  | "fullName" => some fun a b => a.fullName ≤ b.fullName
  | "country" => some fun a b => a.country ≤ b.country
  | "degree" => some fun a b => a.degree ≤ b.degree
  | "specialization" => some fun a b => a.specialization ≤ b.specialization
  | "organization" => some fun a b => a.organization ≤ b.organization
  | "email" => some fun a b => optStrLe a.email b.email
  | "orcid" => some fun a b => optStrLe a.orcid b.orcid
  | "hIndex" => some fun a b => a.hIndex ≤ b.hIndex
  | _ => none

/-- The `GET /scientists` handler (lines 75-109). -/
def getScientists (db : DB) (q : SciQuery) :
    Except StoreErr (List Scientist × Pagination) :=
  listPaginate db.scientists (sciWhere q)
    ((sciFieldLe q.sortBy).map (orient q.sortOrder)) q.page q.limit

/-! ## GET /participations (participations.ts, lines 95-157) -/

/-- The zod-validated query of `GET /participations` (lines 102-111). -/
structure PartQuery where
  page : String
  limit : String
  sortBy : String
  sortOrder : SortOrder
  participationType : Option String
  status : Option String
  scientistId : Option String
  conferenceId : Option String
deriving DecidableEq

/-- `if (idText) where.field = parseInt(idText)` — a truthy id filter is
`parseInt`-coerced; a `NaN` result is an invalid store argument. -/
def idFilter : Option String → Except StoreErr (Option Int)
  | none => .ok none
  | some s =>
    if s == "" then .ok none
    else
      match jsParseInt s with
      | none => .error .nanArg
      | some n => .ok (some n)

/-- The `where` built at lines 132-136, after id-filter coercion. -/
def partWhere (q : PartQuery) (sid cid : Option Int) (p : Participation) : Bool :=
  (match q.participationType with
   | none => true
   | some s => if s == "" then true else containsCI p.participationType s) &&
  (match q.status with
   | none => true
   | some s => if s == "" then true else containsCI p.status s) &&
  (match sid with
   | none => true
   | some n => (p.scientistId : Int) == n) &&
  (match cid with
   | none => true
   | some n => (p.conferenceId : Int) == n)

/-- `orderBy` resolution against the `Participation` columns (the JSON
`metadata` column is not orderable). -/
def partFieldLe : String → Option (Participation → Participation → Bool)
  | "id" => some fun a b => a.id ≤ b.id
  | "talkTitle" => some fun a b => a.talkTitle ≤ b.talkTitle
  | "participationType" => some fun a b => a.participationType ≤ b.participationType
  | "durationMinutes" => some fun a b => a.durationMinutes ≤ b.durationMinutes
  | "scientistId" => some fun a b => a.scientistId ≤ b.scientistId
  | "conferenceId" => some fun a b => a.conferenceId ≤ b.conferenceId
  | "status" => some fun a b => a.status ≤ b.status
  | _ => none

/-- `formatParticipation` (lines 82-93).  A stored `metadata` value is a
JSON document or null, both of which pass the `typeof`-object test, so the
normalization is the identity projection on stored rows. -/
def formatParticipation (p : Participation) : Participation :=
  { id := p.id, talkTitle := p.talkTitle,
    participationType := p.participationType,
    durationMinutes := p.durationMinutes, scientistId := p.scientistId,
    conferenceId := p.conferenceId, status := p.status,
    metadata := p.metadata }

/-- The `GET /participations` handler (lines 125-157). -/
def getParticipations (db : DB) (q : PartQuery) :
    Except StoreErr (List Participation × Pagination) :=
  match idFilter q.scientistId, idFilter q.conferenceId with
  | .ok sid, .ok cid =>
    match listPaginate db.participations (partWhere q sid cid)
        ((partFieldLe q.sortBy).map (orient q.sortOrder)) q.page q.limit with
    | .error e => .error e
    | .ok (data, pg) => .ok (data.map formatParticipation, pg)
  | .error e, _ => .error e
  | _, .error e => .error e

/-! ## GET /participations/with-details (participations.ts, lines 159-250) -/

/-- The zod-validated query of the with-details route (lines 166-170):
only `page`, `limit` and `participationType` exist — the route accepts no
sort parameters. -/
structure WithDetailsQuery where
  page : String
  limit : String
  participationType : Option String
deriving DecidableEq

/-- The `select` allow-list applied to the joined scientist
(lines 202-210). -/
structure ScientistSummary where
  id : Nat
  fullName : String
  country : String
  specialization : String
  hIndex : Nat
deriving DecidableEq

def summarizeScientist (s : Scientist) : ScientistSummary :=
  { id := s.id, fullName := s.fullName, country := s.country,
    specialization := s.specialization, hIndex := s.hIndex }

/-- The `select` allow-list applied to the joined conference
(lines 211-219); `date` is serialized with `toISOString` at line 239. -/
structure ConferenceSummary where
  id : Nat
  name : String
  topic : String
  date : Nat
  location : String
deriving DecidableEq

def summarizeConference (c : Conference) : ConferenceSummary :=
  { id := c.id, name := c.name, topic := c.topic, date := c.date,
    location := c.location }

/-- A row of the with-details response (lines 227-242). -/
structure ParticipationWithDetails where
  id : Nat
  talkTitle : String
  participationType : String
  durationMinutes : Nat
  status : String
  metadata : Option Metadata
  scientist : ScientistSummary
  conference : ConferenceSummary
deriving DecidableEq

/-- The `where` built at lines 191-194. -/
def withDetailsWhere (q : WithDetailsQuery) (p : Participation) : Bool :=
  match q.participationType with
  | none => true
  | some s => if s == "" then true else containsCI p.participationType s

/-- The `GET /participations/with-details` handler (lines 184-250): the
page is selected with the fixed `orderBy: { id: 'desc' }`, then each
selected row is inner-joined with its scientist and conference, trimmed
to the two `select` allow-lists. -/
def getParticipationsWithDetails (db : DB) (q : WithDetailsQuery) :
    Except StoreErr (List ParticipationWithDetails × Pagination) :=
  match jsParseInt q.page, jsParseInt q.limit with
  | some pageNum, some limitNum =>
    match findMany db.participations (withDetailsWhere q)
        (fun a b => b.id ≤ a.id) ((pageNum - 1) * limitNum) limitNum with
    | .error e => .error e
    | .ok rows =>
      let data := rows.filterMap fun p =>
        match db.scientists.find? (fun s => s.id == p.scientistId),
            db.conferences.find? (fun c => c.id == p.conferenceId) with
        | some s, some c =>
          some { id := p.id, talkTitle := p.talkTitle,
                 participationType := p.participationType,
                 durationMinutes := p.durationMinutes, status := p.status,
                 metadata := p.metadata,
                 scientist := summarizeScientist s,
                 conference := summarizeConference c }
        | _, _ => none
      let total := db.participations.countP (withDetailsWhere q)
      .ok (data, { page := pageNum, limit := limitNum, total := total,
                   pages := jsCeilDiv total limitNum })
  | _, _ => .error .nanArg

/-! ## GET /conferences/{id} (conferences.ts, lines 181-230) -/

/-- The response of `GET /conferences/{id}`: the conference together with
its participations, each carrying `include: { scientist: true }` — the
full, untrimmed `Scientist` row. -/
structure ConferenceWithParticipations where
  conference : Conference
  participations : List (Participation × Scientist)
deriving DecidableEq

/-- The `GET /conferences/{id}` handler (lines 211-230). -/
def getConferenceById (db : DB) (id : Nat) :
    Option ConferenceWithParticipations :=
  (db.conferences.find? (fun c => c.id == id)).map fun c =>
    { conference := c,
      participations :=
        (db.participations.filter (fun p => p.conferenceId == c.id)).filterMap
          fun p =>
            (db.scientists.find? (fun s => s.id == p.scientistId)).map
              fun s => (p, s) }

/-! ## POST /participations and GET /participations/{id}
(participations.ts, lines 346-414) -/

/-- The zod-validated create body (lines 41-49); `status` and `metadata`
are optional. -/
structure CreateParticipationInput where
  talkTitle : String
  participationType : String
  durationMinutes : Nat
  scientistId : Nat
  conferenceId : Nat
  status : Option String := none
  metadata : Option Metadata := none
deriving DecidableEq

/-- `data.status || 'confirmed'` (line 405): under JavaScript truthiness
both an absent status and an empty-string status are falsy, so both take
the default. -/
def statusOrDefault : Option String → String
  | none => "confirmed"
  | some s => if s == "" then "confirmed" else s

inductive CreateErr where
  | constraintViolation
deriving DecidableEq

/-- The `POST /participations` handler (lines 394-414): the store assigns
the next id and enforces the two foreign keys (a dangling reference makes
`prisma.participation.create` throw, answered as a 400). -/
def createParticipation (db : DB) (input : CreateParticipationInput) :
    Except CreateErr (Participation × DB) :=
  if db.scientists.any (fun s => s.id == input.scientistId) &&
      db.conferences.any (fun c => c.id == input.conferenceId) then
    let p : Participation :=
      { id := db.nextParticipationId,
        talkTitle := input.talkTitle,
        participationType := input.participationType,
        durationMinutes := input.durationMinutes,
        scientistId := input.scientistId,
        conferenceId := input.conferenceId,
        status := statusOrDefault input.status,
        metadata := input.metadata }
    .ok (formatParticipation p,
      { db with participations := db.participations ++ [p],
                nextParticipationId := db.nextParticipationId + 1 })
  else .error .constraintViolation

/-- The `GET /participations/{id}` handler (lines 346-358). -/
def getParticipation (db : DB) (id : Nat) : Option Participation :=
  (db.participations.find? (fun p => p.id == id)).map formatParticipation

/-! ## PATCH /participations/bulk-update-status
(participations.ts, lines 252-314) -/

/-- The zod-validated bulk-update body (lines 262-267); `beforeDate` is a
zod-checked ISO date-time, carried here as its timestamp. -/
structure BulkUpdateInput where
  conferenceId : Nat
  oldStatus : String
  newStatus : String
  beforeDate : Option Nat := none
deriving DecidableEq

/-- The relation part of the bulk `where` (lines 295-301): when
`beforeDate` is supplied the row must have a related conference whose
`date` is strictly `lt` the cutoff. -/
def bulkDateCond (db : DB) (b : BulkUpdateInput) (p : Participation) : Bool :=
  match b.beforeDate with
  | none => true
  | some d =>
    match db.conferences.find? (fun c => c.id == p.conferenceId) with
    | some c => decide (c.date < d)
    | none => false

/-- The full bulk `where` (lines 290-301). -/
def bulkWhere (db : DB) (b : BulkUpdateInput) (p : Participation) : Bool :=
  p.conferenceId == b.conferenceId && p.status == b.oldStatus &&
    bulkDateCond db b p

/-- The `PATCH /participations/bulk-update-status` handler
(lines 287-314): `updateMany` sets `status := newStatus` on every matching
row and reports the number of rows it touched. -/
def bulkUpdateParticipations (db : DB) (b : BulkUpdateInput) : Nat × DB :=
  (db.participations.countP (bulkWhere db b),
   { db with participations := db.participations.map fun p =>
       if bulkWhere db b p then { p with status := b.newStatus } else p })

/-! ## GET /conferences/stats (conferences.ts, lines 116-179) -/

/-- One entry of the statistics response (lines 44-50); the JavaScript
object `topicDistribution` is an insertion-ordered association list. -/
structure ConferenceStats where
  country : String
  totalConferences : Nat
  totalParticipations : Nat
  avgCapacity : Nat
  topicDistribution : List (String × Nat)
deriving DecidableEq

/-- `topicCounts[conf.topic] = (topicCounts[conf.topic] || 0) + 1`
(line 162) over a JavaScript object: the first write inserts the key, a
later write increments in place. -/
def bumpTopic : List (String × Nat) → String → List (String × Nat)
  | [], t => [(t, 1)]
  | (k, v) :: rest, t =>
    if k == t then (k, v + 1) :: rest else (k, v) :: bumpTopic rest t

/-- Reading a key out of a JavaScript object modelled as an association
list: `m[t] || 0`. -/
def lookupD (m : List (String × Nat)) (t : String) : Nat :=
  match m with
  | [] => 0
  | (k, v) :: rest => if k = t then v else lookupD rest t

/-- One step of collecting the distinct group-by keys. -/
def groupStep (acc : List String) (c : Conference) : List String :=
  if c.country ∈ acc then acc else acc ++ [c.country]

/-- The distinct countries produced by `groupBy({ by: ['country'] })`
(lines 137-145), in first-occurrence order. -/
def groupCountries (cs : List Conference) : List String :=
  cs.foldl groupStep []

/-- `Math.round(stat._avg.capacity || 0)` (line 170): the group average
`sum / len` rounded half-up, which for non-negative operands is
`⌊(2 * sum + len) / (2 * len)⌋`; an empty group (null average) gives 0. -/
def roundedAvgCapacity (confs : List Conference) : Nat :=
  if confs.length == 0 then 0
  else (2 * (confs.map (fun c => c.capacity)).sum + confs.length) /
    (2 * confs.length)

/-- The per-country entry built at lines 147-173: the detail query
re-fetches the country's conferences with their participation `_count`,
then one pass accumulates the topic distribution and the participation
total. -/
def conferenceStatsFor (db : DB) (co : String) : ConferenceStats :=
  let confs := db.conferences.filter (fun c => c.country == co)
  let folded := confs.foldl
    (fun (acc : List (String × Nat) × Nat) c =>
      (bumpTopic acc.1 c.topic,
       acc.2 + db.participations.countP (fun p => p.conferenceId == c.id)))
    ([], 0)
  { country := co,
    totalConferences := db.conferences.countP (fun c => c.country == co),
    totalParticipations := folded.2,
    avgCapacity := roundedAvgCapacity confs,
    topicDistribution := folded.1 }

/-- The `GET /conferences/stats` handler (lines 136-179). -/
def getConferenceStats (db : DB) : List ConferenceStats :=
  (groupCountries db.conferences).map (conferenceStatsFor db)

/-! ## Concrete fixtures exercised by the closed-form theorems -/

def sampleSci : Scientist :=
  { id := 1, fullName := "Ada Lovelace", country := "UK", degree := "PhD",
    specialization := "Math", organization := "Cambridge",
    email := some "ada@example.org", orcid := some "0000-0001",
    hIndex := 12 }

def sampleSciNoEmail : Scientist := { sampleSci with email := none }

def sampleConf : Conference :=
  { id := 1, topic := "AI", name := "NeurIPS", date := 100, country := "UK",
    location := "London", capacity := 500 }

def sampleConf2 : Conference :=
  { id := 2, topic := "Biology", name := "BioCon", date := 200,
    country := "UK", location := "Leeds", capacity := 100 }

def samplePart1 : Participation :=
  { id := 1, talkTitle := "T1", participationType := "talk",
    durationMinutes := 30, scientistId := 1, conferenceId := 1,
    status := "pending", metadata := none }

def samplePart2 : Participation :=
  { id := 2, talkTitle := "T2", participationType := "poster",
    durationMinutes := 20, scientistId := 1, conferenceId := 1,
    status := "pending", metadata := none }

def samplePart3 : Participation :=
  { id := 3, talkTitle := "T3", participationType := "talk",
    durationMinutes := 25, scientistId := 1, conferenceId := 1,
    status := "confirmed", metadata := none }

def sampleDB : DB :=
  { scientists := [sampleSci],
    conferences := [sampleConf, sampleConf2],
    participations := [samplePart1, samplePart2, samplePart3],
    nextParticipationId := 4 }

/-- `sampleDB` with the only non-allow-listed difference being the
scientist's `email` column. -/
def sampleDBNoEmail : DB := { sampleDB with scientists := [sampleSciNoEmail] }

def qConfPage0 : ConfQuery :=
  { page := "0", limit := "10", sortBy := "date", sortOrder := .desc,
    country := none, topic := none }

def qConfPageNeg : ConfQuery := { qConfPage0 with page := "-1" }

def qConfPage2x : ConfQuery := { qConfPage0 with page := "2x" }

def qConfPageAbc : ConfQuery := { qConfPage0 with page := "abc" }

def qConfBadSort : ConfQuery :=
  { qConfPage0 with page := "1", sortBy := "secretColumn" }

def qPartBadSort : PartQuery :=
  { page := "1", limit := "10", sortBy := "secretColumn", sortOrder := .asc,
    participationType := none, status := none, scientistId := none,
    conferenceId := none }

def qConfWindow : ConfQuery := { qConfPage0 with page := "2", limit := "2" }

def qSciWindow : SciQuery :=
  { page := "2", limit := "2", sortBy := "id", sortOrder := .asc,
    search := none }

def qConfNoMatch : ConfQuery :=
  { qConfPage0 with page := "1", country := some "Zebraland" }

def qPartNoMatch : PartQuery :=
  { page := "1", limit := "10", sortBy := "id", sortOrder := .asc,
    participationType := some "keynote", status := none,
    scientistId := none, conferenceId := none }

def qWithDetails : WithDetailsQuery :=
  { page := "1", limit := "10", participationType := none }

/-- The with-details rows `sampleDB` yields for `qWithDetails`: the three
participations in descending id order, joined and trimmed. -/
def sampleWdRow (p : Participation) : ParticipationWithDetails :=
  { id := p.id, talkTitle := p.talkTitle,
    participationType := p.participationType,
    durationMinutes := p.durationMinutes, status := p.status,
    metadata := p.metadata, scientist := summarizeScientist sampleSci,
    conference := summarizeConference sampleConf }

def sampleWdRows : List ParticipationWithDetails :=
  [sampleWdRow samplePart3, sampleWdRow samplePart2, sampleWdRow samplePart1]

def sampleWdPagination : Pagination :=
  { page := 1, limit := 10, total := 3, pages := 1 }

def createInputNoStatus : CreateParticipationInput :=
  { talkTitle := "New talk", participationType := "talk",
    durationMinutes := 15, scientistId := 1, conferenceId := 2 }

def createInputEmptyStatus : CreateParticipationInput :=
  { createInputNoStatus with status := some "" }

/-- The spec's end-to-end bulk scenario: pending → confirmed on
conference 1. -/
def bulkPendingToConfirmed : BulkUpdateInput :=
  { conferenceId := 1, oldStatus := "pending", newStatus := "confirmed" }

/-- The statistics entry `sampleDB` yields for the country `"UK"`. -/
def sampleStatsUK : ConferenceStats := conferenceStatsFor sampleDB "UK"

/-! ## Helper lemmas about the store's sort -/

theorem length_insertLe (le : α → α → Bool) (a : α) (l : List α) :
    (insertLe le a l).length = l.length + 1 := by
  induction l with
  | nil => rfl
  | cons b bs ih =>
    simp only [insertLe]
    split <;> simp [ih]

theorem mem_insertLe (le : α → α → Bool) (a x : α) (l : List α) :
    x ∈ insertLe le a l ↔ x = a ∨ x ∈ l := by
  induction l with
  | nil => simp [insertLe]
  | cons b bs ih =>
    simp only [insertLe]
    split
    · simp only [List.mem_cons]
    · simp only [List.mem_cons, ih]
      tauto

theorem pairwise_insertLe (le : α → α → Bool)
    (htot : ∀ a b, le a b = true ∨ le b a = true)
    (htr : ∀ a b c, le a b = true → le b c = true → le a c = true)
    (a : α) (l : List α) (h : l.Pairwise fun x y => le x y = true) :
    (insertLe le a l).Pairwise fun x y => le x y = true := by
  induction l with
  | nil => simp [insertLe]
  | cons b bs ih =>
    obtain ⟨hb, hbs⟩ := List.pairwise_cons.mp h
    simp only [insertLe]
    split
    case isTrue hab =>
      refine List.pairwise_cons.mpr ⟨?_, h⟩
      intro x hx
      rcases List.mem_cons.mp hx with rfl | hx
      · exact hab
      · exact htr a b x hab (hb x hx)
    case isFalse hab =>
      refine List.pairwise_cons.mpr ⟨?_, ih hbs⟩
      intro x hx
      rcases (mem_insertLe le a x bs).mp hx with rfl | hx
      · rcases htot x b with h1 | h1
        · exact absurd h1 hab
        · exact h1
      · exact hb x hx

theorem pairwise_sortLe (le : α → α → Bool)
    (htot : ∀ a b, le a b = true ∨ le b a = true)
    (htr : ∀ a b c, le a b = true → le b c = true → le a c = true)
    (l : List α) :
    (sortLe le l).Pairwise fun x y => le x y = true := by
  induction l with
  | nil => simp [sortLe]
  | cons a as ih => exact pairwise_insertLe le htot htr a _ ih

/-! ## Helper lemmas about the shared list-endpoint body -/

theorem listPaginate_ok (rows : List α) (pred : α → Bool) (le : α → α → Bool)
    {page limit : String} {p l : Int}
    (hp : jsParseInt page = some p) (hl : jsParseInt limit = some l)
    (hskip : 0 ≤ (p - 1) * l) (htake : 0 ≤ l) :
    listPaginate rows pred (some le) page limit =
      .ok (((sortLe le (rows.filter pred)).drop ((p - 1) * l).toNat).take l.toNat,
           { page := p, limit := l, total := rows.countP pred,
             pages := jsCeilDiv (rows.countP pred) l }) := by
  unfold listPaginate findMany
  rw [hp, hl]
  simp [not_lt.mpr hskip, not_lt.mpr htake]

theorem listPaginate_ok_window (rows : List α) (pred : α → Bool)
    (le? : Option (α → α → Bool)) {page limit : String} {p l : Int}
    {data : List α} {pg : Pagination}
    (hp : jsParseInt page = some p) (hl : jsParseInt limit = some l)
    (hl1 : 1 ≤ l)
    (hok : listPaginate rows pred le? page limit = .ok (data, pg)) :
    ∃ le, le? = some le ∧
      data = ((sortLe le (rows.filter pred)).drop ((p - 1) * l).toNat).take
        l.toNat ∧
      data.length ≤ l.toNat := by
  cases le? with
  | none => simp [listPaginate, hp, hl] at hok
  | some le =>
    refine ⟨le, rfl, ?_⟩
    by_cases hskip : (p - 1) * l < 0
    · simp [listPaginate, hp, hl, findMany, hskip] at hok
    · rw [listPaginate_ok rows pred le hp hl (not_lt.mp hskip) (by omega)] at hok
      simp only [Except.ok.injEq, Prod.mk.injEq] at hok
      obtain ⟨h1, -⟩ := hok
      exact ⟨h1.symm, h1 ▸ List.length_take_le _ _⟩

theorem listPaginate_pagination (rows : List α) (pred : α → Bool)
    (le? : Option (α → α → Bool)) {page limit : String} {p l : Int}
    {data : List α} {pg : Pagination}
    (hp : jsParseInt page = some p) (hl : jsParseInt limit = some l)
    (hok : listPaginate rows pred le? page limit = .ok (data, pg)) :
    pg = { page := p, limit := l, total := rows.countP pred,
           pages := jsCeilDiv (rows.countP pred) l } := by
  cases le? with
  | none => simp [listPaginate, hp, hl] at hok
  | some le =>
    simp only [listPaginate, hp, hl] at hok
    cases hfm : findMany rows pred le ((p - 1) * l) l with
    | error e =>
      rw [hfm] at hok
      simp at hok
    | ok d =>
      rw [hfm] at hok
      simp only [Except.ok.injEq, Prod.mk.injEq] at hok
      exact hok.2.symm

theorem findMany_ok_nil {rows : List α} {pred : α → Bool}
    {le : α → α → Bool} {skip take : Int} {d : List α}
    (hfil : rows.filter pred = [])
    (hok : findMany rows pred le skip take = .ok d) : d = [] := by
  unfold findMany at hok
  rw [hfil] at hok
  simp only [sortLe, List.drop_nil] at hok
  split at hok
  · exact absurd hok (by simp)
  · split at hok <;> simpa using hok.symm

theorem listPaginate_countP_zero (rows : List α) (pred : α → Bool)
    (le? : Option (α → α → Bool)) {page limit : String}
    {data : List α} {pg : Pagination}
    (h0 : rows.countP pred = 0)
    (hok : listPaginate rows pred le? page limit = .ok (data, pg)) :
    data = [] := by
  have hfil : rows.filter pred = [] := by
    rw [List.filter_eq_nil_iff]
    intro a ha
    simpa using List.countP_eq_zero.mp h0 a ha
  cases le? with
  | none =>
    unfold listPaginate at hok
    cases hpp : jsParseInt page <;> cases hll : jsParseInt limit <;>
      rw [hpp, hll] at hok <;> simp at hok
  | some le =>
    cases hpp : jsParseInt page with
    | none =>
      simp [listPaginate, hpp] at hok
    | some p =>
      cases hll : jsParseInt limit with
      | none =>
        simp [listPaginate, hpp, hll] at hok
      | some l =>
        simp only [listPaginate, hpp, hll] at hok
        cases hfm : findMany rows pred le ((p - 1) * l) l with
        | error e =>
          rw [hfm] at hok
          simp at hok
        | ok d =>
          rw [hfm] at hok
          simp only [Except.ok.injEq, Prod.mk.injEq] at hok
          have hd : d = [] := findMany_ok_nil hfil hfm
          rw [← hok.1, hd]

/-- The handlers' `Math.ceil(total / limit)` really is the ceiling of the
exact rational quotient when `limit ≥ 1`. -/
theorem jsCeilDiv_eq_ceil (t : Nat) (l : Int) (hl : 1 ≤ l) :
    (jsCeilDiv t l : Int) = ⌈(t : ℚ) / (l : ℚ)⌉ := by
  have hl0 : ¬ l ≤ 0 := by omega
  have hLl : (l.toNat : Int) = l := Int.toNat_of_nonneg (by omega)
  rw [jsCeilDiv, if_neg hl0]
  set L := l.toNat with hLdef
  have hL1 : 1 ≤ L := by omega
  have hdm := Nat.div_add_mod (t + L - 1) L
  have hmlt : (t + L - 1) % L < L := Nat.mod_lt _ (by omega)
  set n := (t + L - 1) / L with hndef
  have hub : t ≤ L * n := by omega
  have hlb : L * n < t + L := by omega
  have hLQ : (0 : ℚ) < (L : ℚ) := by exact_mod_cast hL1
  have hlQ : (l : ℚ) = (L : ℚ) := by exact_mod_cast hLl.symm
  rw [hlQ]
  symm
  rw [Int.ceil_eq_iff]
  refine ⟨?_, ?_⟩
  · rw [lt_div_iff₀ hLQ]
    have h1 : (L : ℚ) * (n : ℚ) < (t : ℚ) + (L : ℚ) := by exact_mod_cast hlb
    push_cast
    nlinarith
  · rw [div_le_iff₀ hLQ]
    have h2 : (t : ℚ) ≤ (L : ℚ) * (n : ℚ) := by exact_mod_cast hub
    push_cast
    nlinarith

/-- With `limit ≥ 1`, an empty result set reports zero pages:
`Math.ceil(0 / limit) = 0`. -/
theorem jsCeilDiv_zero (l : Int) (hl : 1 ≤ l) : jsCeilDiv 0 l = 0 := by
  rw [jsCeilDiv, if_neg (by omega)]
  exact Nat.div_eq_of_lt (by omega)

/-! ## Claims -/

/-- Claim C1 — the code does not perform the validation the spec demands.
The zod query schema of the list endpoints declares `page` and `limit` as
arbitrary strings with defaults, so a `page` of `"0"`, `"-1"`, `"abc"` or
`"2x"` sails through validation (`conferencesValidateQuery` returns
`some`).  The handler then `parseInt`s the value and hands the result to
the store: `"0"` and `"-1"` produce a negative skip and `"abc"` a `NaN`,
which fail inside the store as runtime errors (surfaced as 500-class
server errors, not 400 validation rejections), while the malformed
numeric string `"2x"` is silently truncated to page 2 and answered with
an ordinary 200 page — the opposite of the rejection the claim
requires. -/
theorem c1_page_limit_not_validated :
    (conferencesValidateQuery { page := some "0" }).isSome = true ∧
    getConferences sampleDB qConfPage0 = .error .negativeSkip ∧
    (conferencesValidateQuery { page := some "-1" }).isSome = true ∧
    getConferences sampleDB qConfPageNeg = .error .negativeSkip ∧
    (conferencesValidateQuery { page := some "abc" }).isSome = true ∧
    getConferences sampleDB qConfPageAbc = .error .nanArg ∧
    (conferencesValidateQuery { page := some "2x" }).isSome = true ∧
    (getConferences sampleDB qConfPage2x).map (fun r => r.2.page) = .ok 2 := by
  refine ⟨by decide, by decide, by decide, by decide, by decide, by decide,
    by decide, by decide⟩

/-- Claim C2 — the code does not perform the allow-list check the spec
demands.  The zod query schema accepts an arbitrary `sortBy` string
(validation returns `some` for `"secretColumn"`), and the handler splices
the raw field name straight into the store's `orderBy` clause, so an
out-of-allow-list value is neither rejected with a validation error nor
silently ignored: it reaches the store and fails there at runtime
(surfaced as a 500-class server error). -/
theorem c2_sort_field_not_validated :
    (conferencesValidateQuery { sortBy := some "secretColumn" }).isSome =
      true ∧
    getConferences sampleDB qConfBadSort = .error .unknownOrderField ∧
    getParticipations sampleDB qPartBadSort = .error .unknownOrderField := by
  refine ⟨by decide, by decide, by decide⟩

/-- Claim C3: for every list request whose `page` and `limit` parse to
integers `≥ 1`, the offset the handler computes and hands to the store is
`(page - 1) * limit` — the returned page is exactly the
drop-`(page-1)*limit` / take-`limit` window of the sorted, filtered
table — and the returned `data` has length at most `limit`.  Stated for
the two cited handlers, `GET /conferences` and `GET /scientists`. -/
theorem c3_offset_and_page_bound (db : DB) (qc : ConfQuery) (qs : SciQuery)
    {pc lc ps ls : Int}
    (hpc : jsParseInt qc.page = some pc)
    (hlc : jsParseInt qc.limit = some lc)
    (hpc1 : 1 ≤ pc) (hlc1 : 1 ≤ lc)
    (hps : jsParseInt qs.page = some ps)
    (hls : jsParseInt qs.limit = some ls)
    (hps1 : 1 ≤ ps) (hls1 : 1 ≤ ls) :
    skipOf qc.page qc.limit = some ((pc - 1) * lc) ∧
    (∀ data pg, getConferences db qc = .ok (data, pg) →
      (∃ le, (confFieldLe qc.sortBy).map (orient qc.sortOrder) = some le ∧
        data = ((sortLe le (db.conferences.filter (confWhere qc))).drop
          ((pc - 1) * lc).toNat).take lc.toNat) ∧
      data.length ≤ lc.toNat) ∧
    skipOf qs.page qs.limit = some ((ps - 1) * ls) ∧
    (∀ data pg, getScientists db qs = .ok (data, pg) →
      (∃ le, (sciFieldLe qs.sortBy).map (orient qs.sortOrder) = some le ∧
        data = ((sortLe le (db.scientists.filter (sciWhere qs))).drop
          ((ps - 1) * ls).toNat).take ls.toNat) ∧
      data.length ≤ ls.toNat) := by
  refine ⟨?_, ?_, ?_, ?_⟩
  · rw [skipOf, hpc, hlc]
  · intro data pg hok
    obtain ⟨le, hle, hdata, hlen⟩ :=
      listPaginate_ok_window db.conferences (confWhere qc)
        ((confFieldLe qc.sortBy).map (orient qc.sortOrder)) hpc hlc hlc1 hok
    exact ⟨⟨le, hle, hdata⟩, hlen⟩
  · rw [skipOf, hps, hls]
  · intro data pg hok
    obtain ⟨le, hle, hdata, hlen⟩ :=
      listPaginate_ok_window db.scientists (sciWhere qs)
        ((sciFieldLe qs.sortBy).map (orient qs.sortOrder)) hps hls hls1 hok
    exact ⟨⟨le, hle, hdata⟩, hlen⟩

/-- Witness for C3 at `page = "2"`, `limit = "2"` against `sampleDB`. -/
theorem c3_offset_and_page_bound_witness :
    jsParseInt "2" = some 2 ∧ (1 : Int) ≤ 2 ∧ skipOf "2" "2" = some 2 := by
  refine ⟨by decide, by decide, ?_⟩
  have h := @c3_offset_and_page_bound sampleDB qConfWindow qSciWindow 2 2 2 2
    (by decide) (by decide) (by decide) (by decide)
    (by decide) (by decide) (by decide) (by decide)
  have h1 := h.1
  rw [show ((2 : Int) - 1) * 2 = 2 by decide] at h1
  exact h1

/-- Claim C4: every list response that reports a `total` reports
`pages = ⌈total / limit⌉` (the ceiling of the exact rational quotient),
and a filter matching zero records yields `data = []`, `total = 0` and
`pages = 0`.  Stated for the two cited handlers, `GET /conferences` and
`GET /participations`. -/
theorem c4_pages_is_ceil (db : DB) (qc : ConfQuery) (qp : PartQuery)
    {pc lc pp lp : Int}
    (hpc : jsParseInt qc.page = some pc)
    (hlc : jsParseInt qc.limit = some lc) (hlc1 : 1 ≤ lc)
    (hpp : jsParseInt qp.page = some pp)
    (hlp : jsParseInt qp.limit = some lp) (hlp1 : 1 ≤ lp) :
    (∀ data pg, getConferences db qc = .ok (data, pg) →
      (pg.pages : Int) = ⌈(pg.total : ℚ) / (pg.limit : ℚ)⌉ ∧
      (db.conferences.countP (confWhere qc) = 0 →
        data = [] ∧ pg.total = 0 ∧ pg.pages = 0)) ∧
    (∀ data pg, getParticipations db qp = .ok (data, pg) →
      (pg.pages : Int) = ⌈(pg.total : ℚ) / (pg.limit : ℚ)⌉ ∧
      ∀ sid cid, idFilter qp.scientistId = .ok sid →
        idFilter qp.conferenceId = .ok cid →
        db.participations.countP (partWhere qp sid cid) = 0 →
        data = [] ∧ pg.total = 0 ∧ pg.pages = 0) := by
  constructor
  · intro data pg hok
    have hpg := listPaginate_pagination db.conferences (confWhere qc)
      ((confFieldLe qc.sortBy).map (orient qc.sortOrder)) hpc hlc hok
    constructor
    · rw [hpg]
      exact jsCeilDiv_eq_ceil _ lc hlc1
    · intro h0
      refine ⟨?_, ?_, ?_⟩
      · exact listPaginate_countP_zero db.conferences (confWhere qc) _ h0 hok
      · rw [hpg]
        exact h0
      · rw [hpg]
        simpa [h0] using jsCeilDiv_zero lc hlc1
  · intro data pg hok
    cases hsid : idFilter qp.scientistId with
    | error e => simp [getParticipations, hsid] at hok
    | ok sid =>
      cases hcid : idFilter qp.conferenceId with
      | error e => simp [getParticipations, hsid, hcid] at hok
      | ok cid =>
        simp only [getParticipations, hsid, hcid] at hok
        cases hlist : listPaginate db.participations (partWhere qp sid cid)
            ((partFieldLe qp.sortBy).map (orient qp.sortOrder)) qp.page
            qp.limit with
        | error e => rw [hlist] at hok; simp at hok
        | ok r =>
          rw [hlist] at hok
          obtain ⟨d, pg'⟩ := r
          simp only [Except.ok.injEq, Prod.mk.injEq] at hok
          obtain ⟨hdata, hpg'⟩ := hok
          have hpg := listPaginate_pagination db.participations
            (partWhere qp sid cid)
            ((partFieldLe qp.sortBy).map (orient qp.sortOrder)) hpp hlp hlist
          constructor
          · rw [← hpg', hpg]
            exact jsCeilDiv_eq_ceil _ lp hlp1
          · intro sid' cid' hsid' hcid' h0
            obtain rfl : sid = sid' := by injection hsid'
            obtain rfl : cid = cid' := by injection hcid'
            have hd : d = [] := listPaginate_countP_zero db.participations
              (partWhere qp sid cid) _ h0 hlist
            refine ⟨?_, ?_, ?_⟩
            · rw [← hdata, hd]
              rfl
            · rw [← hpg', hpg]
              exact h0
            · rw [← hpg', hpg]
              simpa [h0] using jsCeilDiv_zero lp hlp1

/-- Witness for C4: against `sampleDB`, a country filter matching no
conference yields the empty page with `total = 0` and `pages = 0`, and
the reported pages is the ceiling of `total / limit`. -/
theorem c4_pages_is_ceil_witness :
    jsParseInt qConfNoMatch.page = some 1 ∧ (1 : Int) ≤ 10 ∧
    ∃ data pg, getConferences sampleDB qConfNoMatch = .ok (data, pg) ∧
      (pg.pages : Int) = ⌈(pg.total : ℚ) / (pg.limit : ℚ)⌉ ∧
      data = [] ∧ pg.total = 0 ∧ pg.pages = 0 := by
  refine ⟨by decide, by decide, ?_⟩
  have h := @c4_pages_is_ceil sampleDB qConfNoMatch qPartNoMatch 1 10 1 10
    (by decide) (by decide) (by decide) (by decide) (by decide) (by decide)
  have hok : getConferences sampleDB qConfNoMatch =
      .ok ([], { page := 1, limit := 10, total := 0, pages := 0 }) := by
    decide
  obtain ⟨hceil, hzero⟩ := h.1 [] _ hok
  exact ⟨[], _, hok, hceil, hzero (by decide)⟩

/-- Claim C7: the bulk status update touches exactly those rows whose
`conferenceId` and `status` equal the given `conferenceId` / `oldStatus`
(and, when `beforeDate` is supplied, whose related conference's date is
strictly before it): it rewrites their status to `newStatus`, reports the
number of matching rows, leaves every non-matching participation and the
other two tables untouched, and preserves row count and order. -/
theorem c7_bulk_update_frame (db : DB) (b : BulkUpdateInput) :
    (bulkUpdateParticipations db b).2.participations.length =
      db.participations.length ∧
    (bulkUpdateParticipations db b).2.scientists = db.scientists ∧
    (bulkUpdateParticipations db b).2.conferences = db.conferences ∧
    (bulkUpdateParticipations db b).1 =
      db.participations.countP (fun p =>
        p.conferenceId == b.conferenceId && p.status == b.oldStatus &&
          bulkDateCond db b p) ∧
    ∀ (i : Nat) (p : Participation), db.participations[i]? = some p →
      ((p.conferenceId = b.conferenceId ∧ p.status = b.oldStatus ∧
          bulkDateCond db b p = true) →
        (bulkUpdateParticipations db b).2.participations[i]? =
          some { p with status := b.newStatus }) ∧
      (¬ (p.conferenceId = b.conferenceId ∧ p.status = b.oldStatus ∧
          bulkDateCond db b p = true) →
        (bulkUpdateParticipations db b).2.participations[i]? = some p) := by
  refine ⟨by simp [bulkUpdateParticipations], rfl, rfl, rfl, ?_⟩
  intro i p hp
  have hmap : (bulkUpdateParticipations db b).2.participations[i]? =
      Option.map
        (fun p => if bulkWhere db b p then { p with status := b.newStatus }
                  else p)
        db.participations[i]? := by
    simp [bulkUpdateParticipations, List.getElem?_map]
  have hcond : bulkWhere db b p = true ↔
      (p.conferenceId = b.conferenceId ∧ p.status = b.oldStatus ∧
        bulkDateCond db b p = true) := by
    simp [bulkWhere, and_assoc]
  constructor
  · intro hc
    rw [hmap, hp]
    simp [hcond.mpr hc]
  · intro hc
    have hw : bulkWhere db b p = false := by
      rcases hbw : bulkWhere db b p
      · rfl
      · exact absurd (hcond.mp hbw) hc
    rw [hmap, hp]
    simp [hw]

/-- Witness for C7 — the spec's end-to-end scenario: on a conference with
two pending and one confirmed participation, the pending→confirmed bulk
update reports exactly 2 updated rows and leaves the already-confirmed
row unchanged. -/
theorem c7_bulk_update_frame_witness :
    sampleDB.participations[2]? = some samplePart3 ∧
    (bulkUpdateParticipations sampleDB bulkPendingToConfirmed).1 = 2 ∧
    (bulkUpdateParticipations sampleDB
      bulkPendingToConfirmed).2.participations[2]? = some samplePart3 := by
  have h := c7_bulk_update_frame sampleDB bulkPendingToConfirmed
  refine ⟨by decide, ?_, ?_⟩
  · rw [h.2.2.2.1]
    decide
  · exact (h.2.2.2.2 2 samplePart3 (by decide)).2 (by decide)

/-- Claim C10: submitting `status = ""` on create behaves exactly like
omitting `status`: the handler's `data.status || 'confirmed'` treats the
empty string as falsy, so the create produces the identical result and
any successfully created row carries status `"confirmed"`. -/
theorem c10_empty_status_defaults (db : DB)
    (input : CreateParticipationInput) (h : input.status = some "") :
    createParticipation db input =
      createParticipation db { input with status := none } ∧
    ∀ resp db', createParticipation db input = .ok (resp, db') →
      resp.status = "confirmed" := by
  constructor
  · unfold createParticipation
    rw [h]
    simp [statusOrDefault]
  · intro resp db' hok
    unfold createParticipation at hok
    rw [h] at hok
    split at hok
    · simp only [Except.ok.injEq, Prod.mk.injEq] at hok
      rw [← hok.1]
      rfl
    · exact absurd hok (by simp)

/-- Witness for C10: a concrete create with `status = ""` equals the same
create with `status` omitted, and yields status `"confirmed"`. -/
theorem c10_empty_status_defaults_witness :
    createInputEmptyStatus.status = some "" ∧
    createParticipation sampleDB createInputEmptyStatus =
      createParticipation sampleDB
        { createInputEmptyStatus with status := none } ∧
    (createParticipation sampleDB createInputEmptyStatus).map
      (fun r => r.1.status) = .ok "confirmed" := by
  have h := c10_empty_status_defaults sampleDB createInputEmptyStatus rfl
  exact ⟨rfl, h.1, by decide⟩

/-- Claim C6, counterexample to the universal round-trip: the zod schema
accepts `status = ""` as a valid create request, yet the stored and
returned status is `"confirmed"`, so the submitted `status` field does
not round-trip. -/
theorem c6_roundtrip_counterexample :
    createInputEmptyStatus.status = some "" ∧
    (createParticipation sampleDB createInputEmptyStatus).map
      (fun r => r.1.status) = .ok "confirmed" ∧
    ("confirmed" : String) ≠ "" := by
  refine ⟨rfl, by decide, by decide⟩

/-- Claim C6 amended: creating a Participation and fetching it by the
returned id round-trips every submitted field, except that a submitted
empty-string `status` (JavaScript-falsy, like an absent one) is stored
and returned as the default `"confirmed"`; in particular an omitted
`status` comes back `"confirmed"`, and an omitted `metadata` comes back
null. -/
theorem c6_create_then_fetch_roundtrip (db : DB)
    (input : CreateParticipationInput)
    (hs : db.scientists.any (fun s => s.id == input.scientistId) = true)
    (hc : db.conferences.any (fun c => c.id == input.conferenceId) = true)
    (hfresh : ∀ p ∈ db.participations, p.id ≠ db.nextParticipationId) :
    ∃ resp db', createParticipation db input = .ok (resp, db') ∧
      getParticipation db' resp.id = some resp ∧
      resp.talkTitle = input.talkTitle ∧
      resp.participationType = input.participationType ∧
      resp.durationMinutes = input.durationMinutes ∧
      resp.scientistId = input.scientistId ∧
      resp.conferenceId = input.conferenceId ∧
      resp.metadata = input.metadata ∧
      (input.status = none → resp.status = "confirmed") ∧
      (∀ s, input.status = some s → s ≠ "" → resp.status = s) ∧
      (input.status = some "" → resp.status = "confirmed") := by
  have hcond : ((db.scientists.any fun s => s.id == input.scientistId) &&
      db.conferences.any fun c => c.id == input.conferenceId) = true := by
    rw [hs, hc]
    rfl
  have hok : createParticipation db input =
      .ok (formatParticipation
        { id := db.nextParticipationId, talkTitle := input.talkTitle,
          participationType := input.participationType,
          durationMinutes := input.durationMinutes,
          scientistId := input.scientistId,
          conferenceId := input.conferenceId,
          status := statusOrDefault input.status,
          metadata := input.metadata },
        { db with
          participations := db.participations ++
            [{ id := db.nextParticipationId, talkTitle := input.talkTitle,
               participationType := input.participationType,
               durationMinutes := input.durationMinutes,
               scientistId := input.scientistId,
               conferenceId := input.conferenceId,
               status := statusOrDefault input.status,
               metadata := input.metadata }],
          nextParticipationId := db.nextParticipationId + 1 }) := by
    unfold createParticipation
    rw [if_pos hcond]
  refine ⟨_, _, hok, ?_, rfl, rfl, rfl, rfl, rfl, rfl, ?_, ?_, ?_⟩
  · show getParticipation _ _ = _
    unfold getParticipation
    have hnone : db.participations.find?
        (fun q => q.id == db.nextParticipationId) = none := by
      rw [List.find?_eq_none]
      intro x hx
      simpa using hfresh x hx
    rw [List.find?_append]
    simp only [formatParticipation]
    rw [hnone]
    simp [List.find?]
    rfl
  · intro h
    show statusOrDefault input.status = _
    rw [h]
    rfl
  · intro s h hne
    show statusOrDefault input.status = _
    rw [h, statusOrDefault, if_neg (by simpa using hne)]
  · intro h
    show statusOrDefault input.status = _
    rw [h]
    rfl

/-- Witness for amended C6: the concrete no-status create against
`sampleDB` round-trips and defaults to `"confirmed"`. -/
theorem c6_create_then_fetch_roundtrip_witness :
    (sampleDB.scientists.any (fun s => s.id == 1)) = true ∧
    ∃ resp db',
      createParticipation sampleDB createInputNoStatus = .ok (resp, db') ∧
      getParticipation db' resp.id = some resp ∧
      resp.status = "confirmed" := by
  obtain ⟨resp, db', hok, hget, -, -, -, -, -, -, hnone, -, -⟩ :=
    c6_create_then_fetch_roundtrip sampleDB createInputNoStatus
      (by decide) (by decide) (by decide)
  exact ⟨by decide, resp, db', hok, hget, hnone rfl⟩

/-- Every page the store returns is sorted by the query's comparator
(it is a contiguous window of the sorted filtered table). -/
theorem findMany_ok_pairwise {rows : List α} {pred : α → Bool}
    {le : α → α → Bool} {skip take : Int} {d : List α}
    (htot : ∀ a b, le a b = true ∨ le b a = true)
    (htr : ∀ a b c, le a b = true → le b c = true → le a c = true)
    (hok : findMany rows pred le skip take = .ok d) :
    d.Pairwise fun x y => le x y = true := by
  have hs := pairwise_sortLe le htot htr (rows.filter pred)
  unfold findMany at hok
  split at hok
  · exact absurd hok (by simp)
  · split at hok
    · injection hok with h
      subst h
      exact List.Pairwise.sublist
        ((List.drop_sublist _ _).trans (List.drop_sublist _ _)) hs
    · injection hok with h
      subst h
      exact List.Pairwise.sublist
        ((List.take_sublist _ _).trans (List.drop_sublist _ _)) hs

/-- Claim C9: `GET /participations/with-details` returns its data ordered
by `id` descending, for every store state and every query — the route's
query schema carries no sort parameters and the handler hardcodes
`orderBy: { id: 'desc' }`. -/
theorem c9_with_details_id_desc (db : DB) (q : WithDetailsQuery)
    {data : List ParticipationWithDetails} {pg : Pagination}
    (hok : getParticipationsWithDetails db q = .ok (data, pg)) :
    data.Pairwise fun a b => b.id ≤ a.id := by
  cases hpp : jsParseInt q.page with
  | none => simp [getParticipationsWithDetails, hpp] at hok
  | some p =>
    cases hll : jsParseInt q.limit with
    | none => simp [getParticipationsWithDetails, hpp, hll] at hok
    | some l =>
      simp only [getParticipationsWithDetails, hpp, hll] at hok
      cases hfm : findMany db.participations (withDetailsWhere q)
          (fun a b => b.id ≤ a.id) ((p - 1) * l) l with
      | error e =>
        rw [hfm] at hok
        simp at hok
      | ok rows =>
        rw [hfm] at hok
        simp only [Except.ok.injEq, Prod.mk.injEq] at hok
        obtain ⟨hdata, -⟩ := hok
        have hrows : rows.Pairwise fun a b => b.id ≤ a.id := by
          have h1 := findMany_ok_pairwise
            (fun a b => by simpa using Nat.le_total b.id a.id)
            (fun a b c h1 h2 => by
              simp only [decide_eq_true_eq] at h1 h2 ⊢
              exact le_trans h2 h1) hfm
          exact h1.imp fun h => of_decide_eq_true h
        rw [← hdata]
        rw [List.pairwise_filterMap]
        refine hrows.imp ?_
        intro a b hab x hx y hy
        simp only [Option.mem_def] at hx hy
        have hxa : x.id = a.id := by
          split at hx
          · injection hx with h
            rw [← h]
          · exact absurd hx (by simp)
        have hyb : y.id = b.id := by
          split at hy
          · injection hy with h
            rw [← h]
          · exact absurd hy (by simp)
        rw [hxa, hyb]
        exact hab

/-- Witness for C9: the concrete with-details page of `sampleDB` comes
back with ids 3, 2, 1 — descending. -/
theorem c9_with_details_id_desc_witness :
    getParticipationsWithDetails sampleDB qWithDetails =
      .ok (sampleWdRows, sampleWdPagination) ∧
    sampleWdRows.Pairwise (fun a b => b.id ≤ a.id) := by
  have hok : getParticipationsWithDetails sampleDB qWithDetails =
      .ok (sampleWdRows, sampleWdPagination) := by decide
  exact ⟨hok, c9_with_details_id_desc sampleDB qWithDetails hok⟩

/-- Claim C5, counterexample: `GET /conferences/{id}` fetches the record
with related entities (`participations` with `include: { scientist:
true }`) and exposes the FULL related scientist rows — verbatim the
stored records, `email` and `orcid` included — not a fixed allow-list
subset: the response even distinguishes two stores that differ only in
the scientist's `email`, a field outside every allow-list used by the
with-details formatter. -/
theorem c5_full_related_record_counterexample :
    (getConferenceById sampleDB 1).map
        (fun r => r.participations.map fun pr => pr.2) =
      some [sampleSci, sampleSci, sampleSci] ∧
    sampleSci.email = some "ada@example.org" ∧
    getConferenceById sampleDB 1 ≠ getConferenceById sampleDBNoEmail 1 := by
  refine ⟨by decide, rfl, by decide⟩

/-- Claim C5 amended: the with-details read does expose only the fixed
allow-list projections — every returned row's nested scientist is the
five-field summary of a stored scientist row and its nested conference
the five-field summary of a stored conference row — while
`GET /conferences/{id}` returns the full related scientist records (see
the counterexample). -/
theorem c5_with_details_allowlist (db : DB) (q : WithDetailsQuery)
    {data : List ParticipationWithDetails} {pg : Pagination}
    (hok : getParticipationsWithDetails db q = .ok (data, pg)) :
    ∀ row ∈ data,
      (∃ s ∈ db.scientists, row.scientist = summarizeScientist s) ∧
      (∃ c ∈ db.conferences, row.conference = summarizeConference c) := by
  cases hpp : jsParseInt q.page with
  | none => simp [getParticipationsWithDetails, hpp] at hok
  | some p =>
    cases hll : jsParseInt q.limit with
    | none => simp [getParticipationsWithDetails, hpp, hll] at hok
    | some l =>
      simp only [getParticipationsWithDetails, hpp, hll] at hok
      cases hfm : findMany db.participations (withDetailsWhere q)
          (fun a b => b.id ≤ a.id) ((p - 1) * l) l with
      | error e =>
        rw [hfm] at hok
        simp at hok
      | ok rows =>
        rw [hfm] at hok
        simp only [Except.ok.injEq, Prod.mk.injEq] at hok
        obtain ⟨hdata, -⟩ := hok
        intro row hrow
        rw [← hdata] at hrow
        obtain ⟨r, hr, hfr⟩ := List.mem_filterMap.mp hrow
        split at hfr
        case h_1 s c hs hc =>
          injection hfr with h
          rw [← h]
          exact ⟨⟨s, List.mem_of_find?_eq_some hs, rfl⟩,
                 ⟨c, List.mem_of_find?_eq_some hc, rfl⟩⟩
        case h_2 => exact absurd hfr (by simp)

/-- Witness for amended C5: the concrete with-details page of `sampleDB`
exposes exactly the five-field summary of the stored scientist. -/
theorem c5_with_details_allowlist_witness :
    getParticipationsWithDetails sampleDB qWithDetails =
      .ok (sampleWdRows, sampleWdPagination) ∧
    ∃ s ∈ sampleDB.scientists,
      (sampleWdRow samplePart3).scientist = summarizeScientist s := by
  have hok : getParticipationsWithDetails sampleDB qWithDetails =
      .ok (sampleWdRows, sampleWdPagination) := by decide
  have h := c5_with_details_allowlist sampleDB qWithDetails hok
    (sampleWdRow samplePart3) (by decide)
  exact ⟨hok, h.1⟩

/-! ## Helper lemmas for the statistics aggregator -/

theorem mem_foldl_groupStep (cs : List Conference) (acc : List String)
    (x : String) :
    x ∈ cs.foldl groupStep acc ↔
      x ∈ acc ∨ x ∈ cs.map fun c => c.country := by
  induction cs generalizing acc with
  | nil => simp
  | cons c cs ih =>
    simp only [List.foldl_cons, ih, groupStep]
    split
    case isTrue h =>
      simp only [List.map_cons, List.mem_cons]
      constructor
      · rintro (hx | hx)
        · exact Or.inl hx
        · exact Or.inr (Or.inr hx)
      · rintro (hx | rfl | hx)
        · exact Or.inl hx
        · exact Or.inl h
        · exact Or.inr hx
    case isFalse h =>
      simp only [List.map_cons, List.mem_cons, List.mem_append,
        List.mem_singleton]
      tauto

theorem nodup_foldl_groupStep (cs : List Conference) (acc : List String)
    (h : acc.Nodup) : (cs.foldl groupStep acc).Nodup := by
  induction cs generalizing acc with
  | nil => simpa using h
  | cons c cs ih =>
    simp only [List.foldl_cons, groupStep]
    split
    · exact ih _ h
    case isFalse hn =>
      refine ih _ ?_
      rw [List.nodup_append]
      refine ⟨h, by simp, ?_⟩
      intro a ha hb
      simp only [List.mem_singleton] at hb
      subst hb
      exact hn ha

theorem lookupD_bumpTopic (m : List (String × Nat)) (t t' : String) :
    lookupD (bumpTopic m t) t' = lookupD m t' + (if t' = t then 1 else 0) := by
  induction m with
  | nil =>
    simp only [bumpTopic, lookupD]
    by_cases h : t' = t
    · subst h
      simp
    · rw [if_neg (fun hc : t = t' => h hc.symm), if_neg h]
  | cons kv rest ih =>
    obtain ⟨k, v⟩ := kv
    simp only [bumpTopic]
    cases hkb : (k == t) with
    | false =>
      have hk : ¬ k = t := by simpa using hkb
      simp only [lookupD]
      by_cases ht : k = t'
      · rw [if_pos ht, if_pos ht, if_neg (fun hc : t' = t => hk (ht.trans hc))]
        omega
      · rw [if_neg ht, if_neg ht]
        exact ih
    | true =>
      have hk : k = t := by simpa using hkb
      subst hk
      simp only [lookupD]
      by_cases ht : k = t'
      · rw [if_pos ht, if_pos ht, if_pos ht.symm]
      · rw [if_neg ht, if_neg ht,
          if_neg (fun hc : t' = k => ht hc.symm)]
        omega

theorem lookupD_foldl_bumpTopic (ts : List String)
    (m : List (String × Nat)) (t : String) :
    lookupD (ts.foldl bumpTopic m) t =
      lookupD m t + ts.countP (fun x => x == t) := by
  induction ts generalizing m with
  | nil => simp
  | cons s ts ih =>
    simp only [List.foldl_cons, List.countP_cons, ih, lookupD_bumpTopic]
    by_cases h : t = s
    · subst h
      simp only [beq_self_eq_true, if_pos rfl]
      simp
      omega
    · have hsb : (s == t) = false := by
        simp only [beq_eq_false_iff_ne, ne_eq]
        exact fun hc => h hc.symm
      rw [if_neg h, hsb]
      simp

theorem statsFoldl_spec (db : DB) (confs : List Conference)
    (m : List (String × Nat)) (n : Nat) :
    confs.foldl
      (fun (acc : List (String × Nat) × Nat) c =>
        (bumpTopic acc.1 c.topic,
         acc.2 + db.participations.countP fun p => p.conferenceId == c.id))
      (m, n) =
      ((confs.map fun c => c.topic).foldl bumpTopic m,
       n + (confs.map fun c =>
         db.participations.countP fun p => p.conferenceId == c.id).sum) := by
  induction confs generalizing m n with
  | nil => simp
  | cons c cs ih =>
    simp only [List.foldl_cons, List.map_cons, List.sum_cons, ih,
      Prod.mk.injEq]
    exact ⟨by trivial, by omega⟩

theorem roundedAvgCapacity_bounds (confs : List Conference) :
    (confs.length = 0 → roundedAvgCapacity confs = 0) ∧
    2 * (confs.map fun c => c.capacity).sum ≤
      2 * confs.length * roundedAvgCapacity confs + confs.length ∧
    2 * confs.length * roundedAvgCapacity confs ≤
      2 * (confs.map fun c => c.capacity).sum + confs.length := by
  by_cases h0 : confs.length = 0
  · have hnil : confs = [] := List.length_eq_zero.mp h0
    subst hnil
    simp [roundedAvgCapacity]
  · have hL : 1 ≤ confs.length := Nat.one_le_iff_ne_zero.mpr h0
    rw [roundedAvgCapacity, if_neg (by simpa using h0)]
    have hdm := Nat.div_add_mod
      (2 * (confs.map fun c => c.capacity).sum + confs.length)
      (2 * confs.length)
    have hmlt : (2 * (confs.map fun c => c.capacity).sum + confs.length) %
        (2 * confs.length) < 2 * confs.length :=
      Nat.mod_lt _ (by omega)
    exact ⟨fun h => absurd h h0, by omega, by omega⟩

/-- Claim C8: for every store state, the statistics endpoint returns one
entry per distinct conference country (no duplicates, and a country
appears iff some conference has it); each entry reports
`totalConferences` = the number of conferences in that country,
`totalParticipations` = the sum of the participation counts of that
country's conferences, `avgCapacity` = the average capacity rounded to a
nearest integer (pinned by `2·sum − len ≤ 2·len·avg ≤ 2·sum + len`, and
`0` when the group average is missing), and `topicDistribution` maps each
topic to the number of that country's conferences having it. -/
theorem c8_stats_grouped_by_country (db : DB) :
    ((getConferenceStats db).map fun e => e.country).Nodup ∧
    (∀ co, (co ∈ (getConferenceStats db).map fun e => e.country) ↔
      co ∈ db.conferences.map fun c => c.country) ∧
    ∀ e ∈ getConferenceStats db,
      e.totalConferences =
        db.conferences.countP (fun c => c.country == e.country) ∧
      e.totalParticipations =
        ((db.conferences.filter fun c => c.country == e.country).map
          fun c => db.participations.countP fun p =>
            p.conferenceId == c.id).sum ∧
      ((db.conferences.filter fun c => c.country == e.country).length = 0 →
        e.avgCapacity = 0) ∧
      2 * ((db.conferences.filter fun c => c.country == e.country).map
          fun c => c.capacity).sum ≤
        2 * (db.conferences.filter fun c => c.country == e.country).length *
            e.avgCapacity +
          (db.conferences.filter fun c => c.country == e.country).length ∧
      2 * (db.conferences.filter fun c => c.country == e.country).length *
          e.avgCapacity ≤
        2 * ((db.conferences.filter fun c => c.country == e.country).map
            fun c => c.capacity).sum +
          (db.conferences.filter fun c => c.country == e.country).length ∧
      ∀ t, lookupD e.topicDistribution t =
        db.conferences.countP fun c =>
          c.country == e.country && c.topic == t := by
  have hmapc : ((getConferenceStats db).map fun e => e.country) =
      groupCountries db.conferences := by
    rw [getConferenceStats, List.map_map]
    have : ((fun e : ConferenceStats => e.country) ∘ conferenceStatsFor db) =
        fun co => co := rfl
    rw [this]
    simp
  refine ⟨?_, ?_, ?_⟩
  · rw [hmapc]
    exact nodup_foldl_groupStep _ _ List.nodup_nil
  · intro co
    rw [hmapc, groupCountries, mem_foldl_groupStep]
    simp
  · intro e he
    obtain ⟨co, hco, rfl⟩ := List.mem_map.mp he
    have hcountry : (conferenceStatsFor db co).country = co := rfl
    rw [hcountry]
    have hfold := statsFoldl_spec db
      (db.conferences.filter fun c => c.country == co) [] 0
    have htp : (conferenceStatsFor db co).totalParticipations =
        ((db.conferences.filter fun c => c.country == co).map
          fun c => db.participations.countP fun p =>
            p.conferenceId == c.id).sum := by
      show ((db.conferences.filter fun c => c.country == co).foldl
        (fun (acc : List (String × Nat) × Nat) c =>
          (bumpTopic acc.1 c.topic,
           acc.2 + db.participations.countP fun p =>
             p.conferenceId == c.id)) ([], 0)).2 = _
      rw [hfold]
      simp
    have htd : (conferenceStatsFor db co).topicDistribution =
        ((db.conferences.filter fun c => c.country == co).map
          fun c => c.topic).foldl bumpTopic [] := by
      show ((db.conferences.filter fun c => c.country == co).foldl
        (fun (acc : List (String × Nat) × Nat) c =>
          (bumpTopic acc.1 c.topic,
           acc.2 + db.participations.countP fun p =>
             p.conferenceId == c.id)) ([], 0)).1 = _
      rw [hfold]
    have havg : (conferenceStatsFor db co).avgCapacity =
        roundedAvgCapacity (db.conferences.filter fun c =>
          c.country == co) := rfl
    obtain ⟨hz, hub, hlb⟩ :=
      roundedAvgCapacity_bounds (db.conferences.filter fun c =>
        c.country == co)
    refine ⟨rfl, htp, ?_, ?_, ?_, ?_⟩
    · rw [havg]
      exact hz
    · rw [havg]
      exact hub
    · rw [havg]
      exact hlb
    · intro t
      rw [htd, lookupD_foldl_bumpTopic]
      simp only [lookupD]
      rw [List.countP_map]
      rw [List.countP_filter]
      refine Nat.zero_add _ ▸ List.countP_congr ?_
      intro c hc
      simp [Function.comp, Bool.and_comm]

/-- Witness for C8: the single-country `sampleDB` yields one entry, for
`"UK"`, with 2 conferences, 3 participations in total, rounded average
capacity 300 (capacities 500 and 100), and one `"AI"` conference in the
topic distribution. -/
theorem c8_stats_grouped_by_country_witness :
    sampleStatsUK ∈ getConferenceStats sampleDB ∧
    sampleStatsUK.country = "UK" ∧
    sampleStatsUK.totalConferences = 2 ∧
    sampleStatsUK.totalParticipations = 3 ∧
    sampleStatsUK.avgCapacity = 300 ∧
    lookupD sampleStatsUK.topicDistribution "AI" = 1 := by
  have hmem : sampleStatsUK ∈ getConferenceStats sampleDB := by decide
  have h := (c8_stats_grouped_by_country sampleDB).2.2 sampleStatsUK hmem
  refine ⟨hmem, by decide, ?_, ?_, by decide, ?_⟩
  · rw [h.1]
    decide
  · rw [h.2.1]
    decide
  · rw [h.2.2.2.2.2 "AI"]
    decide

end ConfApp
